import Mathlib

/-!
Shallow embedding of the per-tick market-making engine and the budgeted
diagnostic encoder of the imcprosperityrunner repository
(src/uploads/trader.py).  Definitions mirror the Python source; machine
integers are modelled as Int (Python integers are unbounded), Python
dicts are modelled as association lists in insertion order, and a Python
assertion failure or raised exception is modelled by Option returning none.
-/

set_option maxRecDepth 40000

namespace ProsperityRunner

/-- An emitted order, mirroring datamodel.Order as used by trader.py:
positive quantity is a buy, negative quantity is a sell. -/
structure Order where
  symbol : String
  price : Int
  quantity : Int
deriving DecidableEq

/-- One instrument order book: two price-to-volume maps, mirroring
datamodel.OrderDepth as consumed by trader.py (buy volumes positive,
sell volumes negative by convention). -/
structure OrderDepth where
  buy_orders : List (Int × Int)
  sell_orders : List (Int × Int)
deriving DecidableEq

/-- Modelled from the spec: datamodel.Listing is not under src; the spec
flattens a listing to the tuple (symbol, product, denomination). -/
structure Listing where
  symbol : String
  product : String
  denomination : String
deriving DecidableEq

/-- Modelled from the spec: datamodel.Trade is not under src; the spec
flattens a trade to (instrument, price, quantity, buyerId, sellerId,
timestamp). -/
structure Trade where
  symbol : String
  price : Int
  quantity : Int
  buyer : String
  seller : String
  timestamp : Int
deriving DecidableEq

/-- Modelled from the spec: the per-instrument structured observation
record is flattened into a fixed-order tuple of its numeric fields
(numeric fields modelled as integers). -/
structure ConversionObservation where
  bidPrice : Int
  askPrice : Int
  transportFees : Int
  exportTariff : Int
  importTariff : Int
  sugarPrice : Int
  sunlightIndex : Int
deriving DecidableEq

/-- Modelled from the spec: observations hold a free-form numeric mapping
passed through unchanged plus the structured per-instrument records. -/
structure Observation where
  plainValueObservations : List (String × Int)
  conversionObservations : List (String × ConversionObservation)
deriving DecidableEq

/-- The tick state handed to Trader.run, mirroring datamodel.TradingState
as consumed by trader.py. -/
structure TradingState where
  timestamp : Int
  traderData : String
  listings : List Listing
  order_depths : List (String × OrderDepth)
  own_trades : List (String × List Trade)
  market_trades : List (String × List Trade)
  position : List (String × Int)
  observations : Observation
deriving DecidableEq

/-! ## Cumulative-volume extractor (Trader.values_extract) -/

/-- Loop body of Trader.values_extract: walks the price levels keeping the
running total tot, the best price seen bestVal, and the running maximum
mxvol; when buy = 0 each volume is sign-inverted before accumulating. -/
def valuesExtractGo (buy : Nat) : List (Int × Int) → Int → Int → Int → Int × Int
  | [], tot, bestVal, _ => (tot, bestVal)
  | (price, vol) :: rest, tot, bestVal, mxvol =>
    let v := if buy = 0 then -vol else vol
    let tot1 := tot + v
    if tot1 > mxvol then valuesExtractGo buy rest tot1 price tot1
    else valuesExtractGo buy rest tot1 bestVal mxvol

/-- Trader.values_extract: returns (cumulative volume, price at which the
running maximum is reached); tot_vol starts at 0, best_val and mxvol start
at the sentinel -1. -/
def values_extract (orderDict : List (Int × Int)) (buy : Nat := 0) : Int × Int :=
  valuesExtractGo buy orderDict 0 (-1) (-1)

/-! ## Quoting engine (Trader.compute_orders_resin) -/

/-- Ascending sort of one book side by price, mirroring
sorted(order_depth.sell_orders.items()); dict keys are unique in the
source, so ties on price cannot arise there. -/
def sortAsc (l : List (Int × Int)) : List (Int × Int) :=
  List.insertionSort (fun a b => a.1 ≤ b.1) l

/-- Descending sort of one book side by price, mirroring
sorted(order_depth.buy_orders.items(), reverse=True). -/
def sortDesc (l : List (Int × Int)) : List (Int × Int) :=
  List.insertionSort (fun a b => b.1 ≤ a.1) l

/-- Aggressive buy-side take loop of compute_orders_resin (the for loop
over osell): takes each acceptable ask up to the remaining capacity,
threading the local counter cpos; the source asserts order_for >= 0, and
an assertion failure is modelled by none. -/
def buyLoop (product : String) (limit pos accBid : Int) :
    List (Int × Int) → Int → Option (List Order × Int)
  | [], cpos => some ([], cpos)
  | (ask, vol) :: rest, cpos =>
    if (ask < accBid ∨ (pos < 0 ∧ ask = accBid)) ∧ cpos < limit then
      let orderFor := min (-vol) (limit - cpos)
      if 0 ≤ orderFor then
        match buyLoop product limit pos accBid rest (cpos + orderFor) with
        | some (os, c) => some (⟨product, ask, orderFor⟩ :: os, c)
        | none => none
      else none
    else buyLoop product limit pos accBid rest cpos

/-- Aggressive sell-side take loop of compute_orders_resin (the for loop
over obuy), the mirror of buyLoop with the assertion order_for <= 0. -/
def sellLoop (product : String) (limit pos accAsk : Int) :
    List (Int × Int) → Int → Option (List Order × Int)
  | [], cpos => some ([], cpos)
  | (bid, vol) :: rest, cpos =>
    if (bid > accAsk ∨ (pos > 0 ∧ bid = accAsk)) ∧ -limit < cpos then
      let orderFor := max (-vol) (-limit - cpos)
      if orderFor ≤ 0 then
        match sellLoop product limit pos accAsk rest (cpos + orderFor) with
        | some (os, c) => some (⟨product, bid, orderFor⟩ :: os, c)
        | none => none
      else none
    else sellLoop product limit pos accAsk rest cpos

/-- One passive buy posting of compute_orders_resin: when capacity remains
and the side condition holds, post min(40, limit - cpos) at the given
price and advance cpos. -/
def passiveBuy (product : String) (limit : Int) (cond : Prop) [Decidable cond]
    (price cpos : Int) : List Order × Int :=
  if cpos < limit ∧ cond then
    let num := min 40 (limit - cpos)
    ([⟨product, price, num⟩], cpos + num)
  else ([], cpos)

/-- One passive sell posting of compute_orders_resin: when capacity
remains and the side condition holds, post max(-40, -limit - cpos) at the
given price and advance cpos. -/
def passiveSell (product : String) (limit : Int) (cond : Prop) [Decidable cond]
    (price cpos : Int) : List Order × Int :=
  if -limit < cpos ∧ cond then
    let num := max (-40) (-limit - cpos)
    ([⟨product, price, num⟩], cpos + num)
  else ([], cpos)

/-- Buy half of compute_orders_resin: aggressive takes over osell starting
from the prior position, then the three passive buy postings in source
order (unwind a short, damp a long above 15, then the standard bid). -/
def buyPhase (product : String) (limit pos accBid undercutBuy bidPr : Int)
    (osell : List (Int × Int)) : Option (List Order) :=
  match buyLoop product limit pos accBid osell pos with
  | none => none
  | some (takes, c0) =>
    let r1 := passiveBuy product limit (pos < 0) (min (undercutBuy + 1) (accBid - 1)) c0
    let r2 := passiveBuy product limit (pos > 15) (min (undercutBuy - 1) (accBid - 1)) r1.2
    let r3 := passiveBuy product limit True bidPr r2.2
    some (takes ++ r1.1 ++ r2.1 ++ r3.1)

/-- Sell half of compute_orders_resin: cpos is reset to the prior
position, then aggressive takes over obuy and the three passive sell
postings in source order. -/
def sellPhase (product : String) (limit pos accAsk undercutSell sellPr : Int)
    (obuy : List (Int × Int)) : Option (List Order) :=
  match sellLoop product limit pos accAsk obuy pos with
  | none => none
  | some (takes, c0) =>
    let r1 := passiveSell product limit (pos > 0) (max (undercutSell - 1) (accAsk + 1)) c0
    let r2 := passiveSell product limit (pos < -15) (max (undercutSell + 1) (accAsk + 1)) r1.2
    let r3 := passiveSell product limit True sellPr r2.2
    some (takes ++ r1.1 ++ r2.1 ++ r3.1)

/-- Body of compute_orders_resin after the two values_extract calls,
parametrised by the extractor results (cumulative volume, best price) for
each side; the source binds sell_vol and buy_vol but never uses them, and
the dead locals mx_with_buy, mprice_actual and mprice_ours are omitted. -/
def computeOrdersResinWith (product : String) (limit pos accBid accAsk : Int)
    (osell obuy : List (Int × Int)) (exSell exBuy : Int × Int) :
    Option (List Order) :=
  let bestSellPr := exSell.2
  let bestBuyPr := exBuy.2
  let undercutBuy := bestBuyPr + 1
  let undercutSell := bestSellPr - 1
  let bidPr := min undercutBuy (accBid - 1)
  let sellPr := max undercutSell (accAsk + 1)
  match buyPhase product limit pos accBid undercutBuy bidPr osell with
  | none => none
  | some buys =>
    match sellPhase product limit pos accAsk undercutSell sellPr obuy with
    | none => none
    | some sells => some (buys ++ sells)

/-- Trader.compute_orders_resin: limit stands for
self.position_limits[product] and pos for self.position.get(product, 0),
both constant for the duration of the call. -/
def compute_orders_resin (product : String) (limit pos : Int)
    (order_depth : OrderDepth) (accBid accAsk : Int) : Option (List Order) :=
  let osell := sortAsc order_depth.sell_orders
  let obuy := sortDesc order_depth.buy_orders
  computeOrdersResinWith product limit pos accBid accAsk osell obuy
    (values_extract osell 0) (values_extract obuy 1)

/-! ## Trader.run -/

/-- Position limit for RAINFOREST_RESIN from Trader.__init__. -/
def resinPositionLimit : Int := 50

/-- Constant fair price for RAINFOREST_RESIN from Trader.__init__. -/
def resinFairPrice : Int := 10000

/-- Orders part of Trader.run: only RAINFOREST_RESIN is processed, with
the prior position read from the state and the fair price used as both
acceptable bid and ask. -/
def ordersPart (state : TradingState) : Option (List (String × List Order)) :=
  match state.order_depths.lookup "RAINFOREST_RESIN" with
  | some od =>
    let pos := (state.position.lookup "RAINFOREST_RESIN").getD 0
    (compute_orders_resin "RAINFOREST_RESIN" resinPositionLimit pos od
        resinFairPrice resinFairPrice).map
      (fun l => [("RAINFOREST_RESIN", l)])
  | none => some []

/-- Trader.run parametrised by the diagnostic encoding step that it
invokes before returning: the source calls logger.flush(state, orders, 0,
str-empty) with no exception handler, so a raising encoder (none) aborts
the call, which is modelled by the Option bind. -/
def runWithEncoder
    (enc : TradingState → List (String × List Order) → Int → String → Option String)
    (state : TradingState) :
    Option (List (String × List Order) × Int × String) :=
  match ordersPart state with
  | none => none
  | some orders =>
    match enc state orders 0 "" with
    | none => none
    | some _ => some (orders, 0, "")

/-! ## Budgeted diagnostic encoder (Logger)

The Logger serializes via json.dumps with separators (",", ":") over the
plain values produced by its compress helpers.  json.dumps and the
ProsperityEncoder live outside src (the latter in the uploads/datamodel.py
that app.py copies next to the strategy), so the serializer below is the
standard compact JSON text form specialised to the fixed shapes that
compress_state and compress_orders produce: every value is an int, a
string, a list, or a string-keyed object, and int dict keys are emitted as
quoted decimal strings. -/

/-- Left and right brace characters used by the JSON object serializer. -/
def lbrace : Char := Char.ofNat 123

/-- Right brace character used by the JSON object serializer. -/
def rbrace : Char := Char.ofNat 125

/-- Lowercase hexadecimal digit, as produced by the json module. -/
def hexDig (n : Nat) : Char :=
  if n < 10 then Char.ofNat (48 + n) else Char.ofNat (87 + n)

/-- Four-digit unicode escape sequence backslash-u-XXXX. -/
def uEsc (n : Nat) : List Char :=
  ['\\', 'u', hexDig (n / 4096 % 16), hexDig (n / 256 % 16),
   hexDig (n / 16 % 16), hexDig (n % 16)]

/-- JSON escaping of one character as json.dumps performs it with the
default ensure_ascii=True: the two-character named escapes, control
characters below 0x20 as unicode escapes, plain ASCII verbatim, and
non-ASCII as unicode escapes (a surrogate pair above 0xFFFF). -/
def escChar (c : Char) : List Char :=
  if c = '"' then ['\\', '"']
  else if c = '\\' then ['\\', '\\']
  else if c = '\n' then ['\\', 'n']
  else if c = '\r' then ['\\', 'r']
  else if c = '\t' then ['\\', 't']
  else if c.toNat = 8 then ['\\', 'b']
  else if c.toNat = 12 then ['\\', 'f']
  else if c.toNat < 32 then uEsc c.toNat
  else if c.toNat < 128 then [c]
  else if c.toNat < 65536 then uEsc c.toNat
  else uEsc (55296 + (c.toNat - 65536) / 1024) ++ uEsc (56320 + (c.toNat - 65536) % 1024)

/-- JSON escaping of a character list. -/
def escChars (l : List Char) : List Char := (l.map escChar).flatten

/-- Serialized JSON string: opening quote, escaped body, closing quote. -/
def serStr (s : String) : List Char := '"' :: escChars s.data ++ ['"']

/-- Serialized JSON integer. -/
def serInt (n : Int) : List Char := (toString n).data

/-- Comma-join of already serialized items, mirroring separators=(",", ":"). -/
def joinComma : List (List Char) → List Char
  | [] => []
  | [x] => x
  | x :: y :: rest => x ++ ',' :: joinComma (y :: rest)

/-- Serialized JSON array. -/
def serArr (xs : List (List Char)) : List Char := '[' :: joinComma xs ++ [']']

/-- Serialized JSON object with string keys and item separator ":". -/
def serObj (kvs : List (String × List Char)) : List Char :=
  lbrace :: joinComma (kvs.map fun kv => serStr kv.1 ++ ':' :: kv.2) ++ [rbrace]

/-- Logger.compress_listings composed with its serialization: each listing
becomes the array [symbol, product, denomination]. -/
def compressListingsChars (ls : List Listing) : List Char :=
  serArr (ls.map fun l => serArr [serStr l.symbol, serStr l.product, serStr l.denomination])

/-- Serialization of one price-to-volume dict; json.dumps renders the int
keys of the Python dict as quoted decimal strings. -/
def serIntDict (m : List (Int × Int)) : List Char :=
  serObj (m.map fun pv => (toString pv.1, serInt pv.2))

/-- Logger.compress_order_depths composed with its serialization: symbol
maps to the pair [buy_orders, sell_orders]. -/
def compressOrderDepthsChars (ods : List (String × OrderDepth)) : List Char :=
  serObj (ods.map fun so => (so.1, serArr [serIntDict so.2.buy_orders, serIntDict so.2.sell_orders]))

/-- Logger.compress_trades composed with its serialization: trades of all
symbols flattened into sextuple arrays. -/
def compressTradesChars (ts : List (String × List Trade)) : List Char :=
  serArr ((ts.map fun st => st.2.map fun t =>
    serArr [serStr t.symbol, serInt t.price, serInt t.quantity,
            serStr t.buyer, serStr t.seller, serInt t.timestamp]).flatten)

/-- Logger.compress_observations composed with its serialization. -/
def compressObservationsChars (o : Observation) : List Char :=
  serArr [serObj (o.plainValueObservations.map fun p => (p.1, serInt p.2)),
          serObj (o.conversionObservations.map fun p =>
            (p.1, serArr [serInt p.2.bidPrice, serInt p.2.askPrice,
                          serInt p.2.transportFees, serInt p.2.exportTariff,
                          serInt p.2.importTariff, serInt p.2.sugarPrice,
                          serInt p.2.sunlightIndex]))]

/-- Serialization of the position dict. -/
def compressPositionChars (pos : List (String × Int)) : List Char :=
  serObj (pos.map fun p => (p.1, serInt p.2))

/-- Logger.compress_state composed with its serialization, with the
trader-data slot passed explicitly as in the source. -/
def compressStateChars (st : TradingState) (traderData : String) : List Char :=
  serArr [serInt st.timestamp, serStr traderData,
          compressListingsChars st.listings,
          compressOrderDepthsChars st.order_depths,
          compressTradesChars st.own_trades,
          compressTradesChars st.market_trades,
          compressPositionChars st.position,
          compressObservationsChars st.observations]

/-- Logger.compress_orders composed with its serialization. -/
def compressOrdersChars (orders : List (String × List Order)) : List Char :=
  serArr ((orders.map fun so => so.2.map fun o =>
    serArr [serStr o.symbol, serInt o.price, serInt o.quantity]).flatten)

/-- The five-element array that Logger.flush passes to to_json, with the
three variable text fields (state trader data, explicit trader data,
accumulated log) as parameters. -/
def flushPayload (st : TradingState) (orders : List (String × List Order))
    (conversions : Int) (f1 f2 f3 : String) : List Char :=
  serArr [compressStateChars st f1, compressOrdersChars orders,
          serInt conversions, serStr f2, serStr f3]

/-- Python slice value[:k] for an Int bound: a nonnegative bound keeps the
first k characters, a negative bound drops the last -k characters. -/
def pySliceTo (s : String) (k : Int) : String :=
  String.mk (s.data.take (if 0 ≤ k then k.toNat else s.data.length - (-k).toNat))

/-- Logger.truncate: a value within the budget is returned unchanged,
otherwise the slice value[:max_length - 3] plus the ellipsis marker. -/
def truncate (value : String) (maxLength : Int) : String :=
  if (value.length : Int) ≤ maxLength then value
  else pySliceTo value (maxLength - 3) ++ "..."

/-- Logger.max_log_length from Logger.__init__. -/
def maxLogLength : Int := 3750

/-- base_length computed by Logger.flush: the serialized length with all
three variable fields empty. -/
def base_length (st : TradingState) (orders : List (String × List Order))
    (conversions : Int) : Nat :=
  (flushPayload st orders conversions "" "" "").length

/-- max_item_length computed by Logger.flush; Python floor division is
Int.fdiv. -/
def max_item_length (st : TradingState) (orders : List (String × List Order))
    (conversions : Int) : Int :=
  Int.fdiv (maxLogLength - base_length st orders conversions) 3

/-- The record string printed by Logger.flush: the payload re-serialized
with each of the three variable fields truncated to max_item_length. -/
def flush (st : TradingState) (orders : List (String × List Order))
    (conversions : Int) (trader_data logs : String) : String :=
  String.mk (flushPayload st orders conversions
    (truncate st.traderData (max_item_length st orders conversions))
    (truncate trader_data (max_item_length st orders conversions))
    (truncate logs (max_item_length st orders conversions)))

/-- The untruncated serialization: the payload with the three variable
fields substituted unmodified. -/
def flushUntruncated (st : TradingState) (orders : List (String × List Order))
    (conversions : Int) (trader_data logs : String) : String :=
  String.mk (flushPayload st orders conversions st.traderData trader_data logs)

/-- Trader.run as the source composes it: the computed orders, then the
logger flush (whose logs buffer is empty, since trader.py never calls
logger.print), then the constant conversions count 0 and context blob. -/
def run (state : TradingState) :
    Option (List (String × List Order) × Int × String) :=
  runWithEncoder (fun s o c t => some (flush s o c t "")) state

/-! ## Derived notions used by the claims -/

/-- Sum of the signed quantities of a list of orders. -/
def qsum (l : List Order) : Int := (l.map Order.quantity).sum

/-- Claim C5 reading of the cumulative volume: the sum over all levels of
the level volume, sign-inverted on the sell side (buy = 0). -/
def sideSum (buy : Nat) (l : List (Int × Int)) : Int :=
  (l.map fun pv => if buy = 0 then -pv.2 else pv.2).sum

/-- A character that json.dumps emits verbatim inside a string literal:
printable ASCII other than the quote and the backslash. -/
def plainChar (c : Char) : Prop :=
  32 ≤ c.toNat ∧ c.toNat < 128 ∧ c ≠ '"' ∧ c ≠ '\\'

instance (c : Char) : Decidable (plainChar c) := by
  unfold plainChar; infer_instance

/-- A string whose JSON serialization needs no escape expansion. -/
def plainStr (s : String) : Prop := ∀ c ∈ s.data, plainChar c

instance (s : String) : Decidable (plainStr s) := by
  unfold plainStr; infer_instance

/-! ## Concrete inputs used by counterexamples and witnesses -/

/-- A tick state whose RAINFOREST_RESIN order book has both side maps
empty and whose position mapping is empty (inventory 0). -/
def stEmptyBook : TradingState :=
  ⟨0, "", [], [("RAINFOREST_RESIN", ⟨[], []⟩)], [], [], [], ⟨[], []⟩⟩

/-- A tick state with no RAINFOREST_RESIN entry at all. -/
def stNoResin : TradingState := ⟨0, "", [], [], [], [], [], ⟨[], []⟩⟩

/-- A small state with short plain variable fields, used to witness the
encoder budget law. -/
def stSmall : TradingState := ⟨7, "abc", [], [], [], [], [], ⟨[], []⟩⟩

/-- A 3800-character instrument symbol. -/
def symBig : String := String.mk (List.replicate 3800 'A')

/-- A state whose fixed-shape part alone (one listing with a huge symbol)
serializes beyond the log budget. -/
def stBig : TradingState := ⟨0, "", [⟨symBig, "P", "D"⟩], [], [], [], [], ⟨[], []⟩⟩

/-- A 102-character string, length 2 + 100 for the truncation claim. -/
def s102 : String := String.mk (List.replicate 102 'a')

/-- The spec section 8 scenario book: buy level 10002 for 8, sell level
9998 for 10. -/
def odScenario : OrderDepth := ⟨[(10002, 8)], [(9998, -10)]⟩

/-- The orders the engine emits on the scenario book at inventory 0. -/
def scenarioOrders : List Order :=
  [⟨"RAINFOREST_RESIN", 9998, 10⟩, ⟨"RAINFOREST_RESIN", 9999, 40⟩,
   ⟨"RAINFOREST_RESIN", 10002, -8⟩, ⟨"RAINFOREST_RESIN", 10001, -40⟩]

/-- The two passive orders the engine emits on an empty book at
inventory 0. -/
def emptyBookOrders : List Order :=
  [⟨"RAINFOREST_RESIN", 0, 40⟩, ⟨"RAINFOREST_RESIN", 10001, -40⟩]

/-! ## Lemmas about the quoting engine -/

theorem qsum_append (a b : List Order) : qsum (a ++ b) = qsum a + qsum b := by
  simp [qsum]

theorem buyLoop_spec (product : String) (limit pos accBid : Int) :
    ∀ (l : List (Int × Int)) (cpos : Int),
      (∀ pv ∈ l, pv.2 < 0) → cpos ≤ limit →
      ∃ os c, buyLoop product limit pos accBid l cpos = some (os, c) ∧
        c = cpos + qsum os ∧ c ≤ limit ∧ ∀ o ∈ os, 1 ≤ o.quantity := by
  intro l
  induction l with
  | nil =>
    intro cpos _ hc
    exact ⟨[], cpos, rfl, by simp [qsum], hc, by simp⟩
  | cons hd tl ih =>
    intro cpos hl hc
    obtain ⟨ask, vol⟩ := hd
    have hv : vol < 0 := hl (ask, vol) (List.mem_cons_self _ _)
    have htl : ∀ pv ∈ tl, pv.2 < 0 := fun pv h => hl pv (List.mem_cons_of_mem _ h)
    by_cases hg : (ask < accBid ∨ (pos < 0 ∧ ask = accBid)) ∧ cpos < limit
    · have hc2 : cpos < limit := hg.2
      obtain ⟨os, c, heq, hsum, hle, hq⟩ :=
        ih (cpos + min (-vol) (limit - cpos)) htl (by omega)
      refine ⟨⟨product, ask, min (-vol) (limit - cpos)⟩ :: os, c, ?_, ?_, hle, ?_⟩
      · simp only [buyLoop, if_pos hg,
          if_pos (by omega : (0:Int) ≤ min (-vol) (limit - cpos)), heq]
      · simp only [qsum, List.map_cons, List.sum_cons] at hsum ⊢
        omega
      · intro o ho
        rcases List.mem_cons.1 ho with rfl | hmem
        · simp; omega
        · exact hq o hmem
    · obtain ⟨os, c, heq, hsum, hle, hq⟩ := ih cpos htl hc
      exact ⟨os, c, by simp only [buyLoop, if_neg hg]; exact heq, hsum, hle, hq⟩

theorem sellLoop_spec (product : String) (limit pos accAsk : Int) :
    ∀ (l : List (Int × Int)) (cpos : Int),
      (∀ pv ∈ l, 0 < pv.2) → -limit ≤ cpos →
      ∃ os c, sellLoop product limit pos accAsk l cpos = some (os, c) ∧
        c = cpos + qsum os ∧ -limit ≤ c ∧ ∀ o ∈ os, o.quantity ≤ -1 := by
  intro l
  induction l with
  | nil =>
    intro cpos _ hc
    exact ⟨[], cpos, rfl, by simp [qsum], hc, by simp⟩
  | cons hd tl ih =>
    intro cpos hl hc
    obtain ⟨bid, vol⟩ := hd
    have hv : 0 < vol := hl (bid, vol) (List.mem_cons_self _ _)
    have htl : ∀ pv ∈ tl, 0 < pv.2 := fun pv h => hl pv (List.mem_cons_of_mem _ h)
    by_cases hg : (bid > accAsk ∨ (pos > 0 ∧ bid = accAsk)) ∧ -limit < cpos
    · have hc2 : -limit < cpos := hg.2
      obtain ⟨os, c, heq, hsum, hle, hq⟩ :=
        ih (cpos + max (-vol) (-limit - cpos)) htl (by omega)
      refine ⟨⟨product, bid, max (-vol) (-limit - cpos)⟩ :: os, c, ?_, ?_, hle, ?_⟩
      · simp only [sellLoop, if_pos hg,
          if_pos (by omega : max (-vol) (-limit - cpos) ≤ (0:Int)), heq]
      · simp only [qsum, List.map_cons, List.sum_cons] at hsum ⊢
        omega
      · intro o ho
        rcases List.mem_cons.1 ho with rfl | hmem
        · simp; omega
        · exact hq o hmem
    · obtain ⟨os, c, heq, hsum, hle, hq⟩ := ih cpos htl hc
      exact ⟨os, c, by simp only [sellLoop, if_neg hg]; exact heq, hsum, hle, hq⟩

theorem passiveBuy_snd (product : String) (limit : Int) (cond : Prop) [Decidable cond]
    (price cpos : Int) (hc : cpos ≤ limit) :
    (passiveBuy product limit cond price cpos).2
        = cpos + qsum (passiveBuy product limit cond price cpos).1 ∧
      (passiveBuy product limit cond price cpos).2 ≤ limit := by
  unfold passiveBuy
  split
  · rename_i hg
    have : cpos < limit := hg.1
    constructor
    · simp [qsum]
    · show cpos + min 40 (limit - cpos) ≤ limit
      omega
  · simp [qsum, hc]

theorem passiveBuy_qty (product : String) (limit : Int) (cond : Prop) [Decidable cond]
    (price cpos : Int) :
    ∀ o ∈ (passiveBuy product limit cond price cpos).1, 1 ≤ o.quantity := by
  unfold passiveBuy
  split
  · rename_i hg
    have : cpos < limit := hg.1
    intro o ho
    simp only [List.mem_singleton] at ho
    subst ho
    simp
    omega
  · simp

theorem passiveSell_snd (product : String) (limit : Int) (cond : Prop) [Decidable cond]
    (price cpos : Int) (hc : -limit ≤ cpos) :
    (passiveSell product limit cond price cpos).2
        = cpos + qsum (passiveSell product limit cond price cpos).1 ∧
      -limit ≤ (passiveSell product limit cond price cpos).2 := by
  unfold passiveSell
  split
  · rename_i hg
    have : -limit < cpos := hg.1
    constructor
    · simp [qsum]
    · show -limit ≤ cpos + max (-40) (-limit - cpos)
      omega
  · simp [qsum, hc]

theorem passiveSell_qty (product : String) (limit : Int) (cond : Prop) [Decidable cond]
    (price cpos : Int) :
    ∀ o ∈ (passiveSell product limit cond price cpos).1, o.quantity ≤ -1 := by
  unfold passiveSell
  split
  · rename_i hg
    have : -limit < cpos := hg.1
    intro o ho
    simp only [List.mem_singleton] at ho
    subst ho
    simp
    omega
  · simp

theorem buyPhase_spec (product : String) (limit pos accBid ub bp : Int)
    (osell : List (Int × Int)) (hsell : ∀ pv ∈ osell, pv.2 < 0) (hpos : pos ≤ limit) :
    ∃ bs, buyPhase product limit pos accBid ub bp osell = some bs ∧
      pos + qsum bs ≤ limit ∧ ∀ o ∈ bs, 1 ≤ o.quantity := by
  obtain ⟨takes, c0, heq, hsum, hle, hq⟩ :=
    buyLoop_spec product limit pos accBid osell pos hsell hpos
  have h1 := passiveBuy_snd product limit (pos < 0) (min (ub + 1) (accBid - 1)) c0 hle
  have q1 := passiveBuy_qty product limit (pos < 0) (min (ub + 1) (accBid - 1)) c0
  have h2 := passiveBuy_snd product limit (pos > 15) (min (ub - 1) (accBid - 1)) _ h1.2
  have q2 := passiveBuy_qty product limit (pos > 15) (min (ub - 1) (accBid - 1))
    (passiveBuy product limit (pos < 0) (min (ub + 1) (accBid - 1)) c0).2
  have h3 := passiveBuy_snd product limit True bp _ h2.2
  have q3 := passiveBuy_qty product limit True bp
    (passiveBuy product limit (pos > 15) (min (ub - 1) (accBid - 1))
      (passiveBuy product limit (pos < 0) (min (ub + 1) (accBid - 1)) c0).2).2
  have hbp : buyPhase product limit pos accBid ub bp osell
      = some (takes
          ++ (passiveBuy product limit (pos < 0) (min (ub + 1) (accBid - 1)) c0).1
          ++ (passiveBuy product limit (pos > 15) (min (ub - 1) (accBid - 1))
               (passiveBuy product limit (pos < 0) (min (ub + 1) (accBid - 1)) c0).2).1
          ++ (passiveBuy product limit True bp
               (passiveBuy product limit (pos > 15) (min (ub - 1) (accBid - 1))
                 (passiveBuy product limit (pos < 0) (min (ub + 1) (accBid - 1)) c0).2).2).1) := by
    unfold buyPhase
    rw [heq]
  refine ⟨_, hbp, ?_, ?_⟩
  · simp only [qsum_append]
    omega
  · intro o ho
    simp only [List.mem_append] at ho
    rcases ho with ((ht | hp1) | hp2) | hp3
    · exact hq o ht
    · exact q1 o hp1
    · exact q2 o hp2
    · exact q3 o hp3

theorem sellPhase_spec (product : String) (limit pos accAsk us sp : Int)
    (obuy : List (Int × Int)) (hbuy : ∀ pv ∈ obuy, 0 < pv.2) (hpos : -limit ≤ pos) :
    ∃ ss, sellPhase product limit pos accAsk us sp obuy = some ss ∧
      -limit ≤ pos + qsum ss ∧ ∀ o ∈ ss, o.quantity ≤ -1 := by
  obtain ⟨takes, c0, heq, hsum, hle, hq⟩ :=
    sellLoop_spec product limit pos accAsk obuy pos hbuy hpos
  have h1 := passiveSell_snd product limit (pos > 0) (max (us - 1) (accAsk + 1)) c0 hle
  have q1 := passiveSell_qty product limit (pos > 0) (max (us - 1) (accAsk + 1)) c0
  have h2 := passiveSell_snd product limit (pos < -15) (max (us + 1) (accAsk + 1)) _ h1.2
  have q2 := passiveSell_qty product limit (pos < -15) (max (us + 1) (accAsk + 1))
    (passiveSell product limit (pos > 0) (max (us - 1) (accAsk + 1)) c0).2
  have h3 := passiveSell_snd product limit True sp _ h2.2
  have q3 := passiveSell_qty product limit True sp
    (passiveSell product limit (pos < -15) (max (us + 1) (accAsk + 1))
      (passiveSell product limit (pos > 0) (max (us - 1) (accAsk + 1)) c0).2).2
  have hsp : sellPhase product limit pos accAsk us sp obuy
      = some (takes
          ++ (passiveSell product limit (pos > 0) (max (us - 1) (accAsk + 1)) c0).1
          ++ (passiveSell product limit (pos < -15) (max (us + 1) (accAsk + 1))
               (passiveSell product limit (pos > 0) (max (us - 1) (accAsk + 1)) c0).2).1
          ++ (passiveSell product limit True sp
               (passiveSell product limit (pos < -15) (max (us + 1) (accAsk + 1))
                 (passiveSell product limit (pos > 0) (max (us - 1) (accAsk + 1)) c0).2).2).1) := by
    unfold sellPhase
    rw [heq]
  refine ⟨_, hsp, ?_, ?_⟩
  · simp only [qsum_append]
    omega
  · intro o ho
    simp only [List.mem_append] at ho
    rcases ho with ((ht | hp1) | hp2) | hp3
    · exact hq o ht
    · exact q1 o hp1
    · exact q2 o hp2
    · exact q3 o hp3

theorem compute_spec (product : String) (limit pos accBid accAsk : Int) (od : OrderDepth)
    (hsell : ∀ pv ∈ od.sell_orders, pv.2 < 0) (hbuy : ∀ pv ∈ od.buy_orders, 0 < pv.2)
    (hlow : -limit ≤ pos) (hhigh : pos ≤ limit) :
    ∃ bs ss, compute_orders_resin product limit pos od accBid accAsk = some (bs ++ ss) ∧
      pos + qsum bs ≤ limit ∧ (∀ o ∈ bs, 1 ≤ o.quantity) ∧
      -limit ≤ pos + qsum ss ∧ (∀ o ∈ ss, o.quantity ≤ -1) := by
  have hsell2 : ∀ pv ∈ sortAsc od.sell_orders, pv.2 < 0 := fun pv h =>
    hsell pv ((List.perm_insertionSort _ _).mem_iff.1 h)
  have hbuy2 : ∀ pv ∈ sortDesc od.buy_orders, 0 < pv.2 := fun pv h =>
    hbuy pv ((List.perm_insertionSort _ _).mem_iff.1 h)
  obtain ⟨bs, hbp, hcap, hbq⟩ := buyPhase_spec product limit pos accBid
    ((values_extract (sortDesc od.buy_orders) 1).2 + 1)
    (min ((values_extract (sortDesc od.buy_orders) 1).2 + 1) (accBid - 1))
    (sortAsc od.sell_orders) hsell2 hhigh
  obtain ⟨ss, hsp, scap, hsq⟩ := sellPhase_spec product limit pos accAsk
    ((values_extract (sortAsc od.sell_orders) 0).2 - 1)
    (max ((values_extract (sortAsc od.sell_orders) 0).2 - 1) (accAsk + 1))
    (sortDesc od.buy_orders) hbuy2 hlow
  refine ⟨bs, ss, ?_, hcap, hbq, scap, hsq⟩
  unfold compute_orders_resin computeOrdersResinWith
  simp only [hbp, hsp]

theorem buyLoop_nonneg (product : String) (limit pos accBid : Int) :
    ∀ (l : List (Int × Int)) (cpos : Int) (os : List Order) (c : Int),
      buyLoop product limit pos accBid l cpos = some (os, c) →
      ∀ o ∈ os, 0 ≤ o.quantity := by
  intro l
  induction l with
  | nil =>
    intro cpos os c h o ho
    simp only [buyLoop, Option.some.injEq, Prod.mk.injEq] at h
    obtain ⟨rfl, rfl⟩ := h
    exact absurd ho (by simp)
  | cons hd tl ih =>
    intro cpos os c h o ho
    obtain ⟨ask, vol⟩ := hd
    by_cases hg : (ask < accBid ∨ (pos < 0 ∧ ask = accBid)) ∧ cpos < limit
    · simp only [buyLoop, if_pos hg] at h
      by_cases h0 : (0:Int) ≤ min (-vol) (limit - cpos)
      · rw [if_pos h0] at h
        cases hrec : buyLoop product limit pos accBid tl (cpos + min (-vol) (limit - cpos)) with
        | none => rw [hrec] at h; simp at h
        | some pr =>
          obtain ⟨os1, c1⟩ := pr
          rw [hrec] at h
          simp only [Option.some.injEq, Prod.mk.injEq] at h
          obtain ⟨rfl, rfl⟩ := h
          rcases List.mem_cons.1 ho with rfl | hmem
          · simpa using h0
          · exact ih _ _ _ hrec o hmem
      · rw [if_neg h0] at h
        simp at h
    · simp only [buyLoop, if_neg hg] at h
      exact ih _ _ _ h o ho

theorem sellLoop_nonpos (product : String) (limit pos accAsk : Int) :
    ∀ (l : List (Int × Int)) (cpos : Int) (os : List Order) (c : Int),
      sellLoop product limit pos accAsk l cpos = some (os, c) →
      ∀ o ∈ os, o.quantity ≤ 0 := by
  intro l
  induction l with
  | nil =>
    intro cpos os c h o ho
    simp only [sellLoop, Option.some.injEq, Prod.mk.injEq] at h
    obtain ⟨rfl, rfl⟩ := h
    exact absurd ho (by simp)
  | cons hd tl ih =>
    intro cpos os c h o ho
    obtain ⟨bid, vol⟩ := hd
    by_cases hg : (bid > accAsk ∨ (pos > 0 ∧ bid = accAsk)) ∧ -limit < cpos
    · simp only [sellLoop, if_pos hg] at h
      by_cases h0 : max (-vol) (-limit - cpos) ≤ (0:Int)
      · rw [if_pos h0] at h
        cases hrec : sellLoop product limit pos accAsk tl (cpos + max (-vol) (-limit - cpos)) with
        | none => rw [hrec] at h; simp at h
        | some pr =>
          obtain ⟨os1, c1⟩ := pr
          rw [hrec] at h
          simp only [Option.some.injEq, Prod.mk.injEq] at h
          obtain ⟨rfl, rfl⟩ := h
          rcases List.mem_cons.1 ho with rfl | hmem
          · simpa using h0
          · exact ih _ _ _ hrec o hmem
      · rw [if_neg h0] at h
        simp at h
    · simp only [sellLoop, if_neg hg] at h
      exact ih _ _ _ h o ho

theorem buyPhase_nonneg (product : String) (limit pos accBid ub bp : Int)
    (osell : List (Int × Int)) (bs : List Order)
    (h : buyPhase product limit pos accBid ub bp osell = some bs) :
    ∀ o ∈ bs, 0 ≤ o.quantity := by
  cases hbl : buyLoop product limit pos accBid osell pos with
  | none => unfold buyPhase at h; rw [hbl] at h; simp at h
  | some pr =>
    obtain ⟨takes, c0⟩ := pr
    unfold buyPhase at h
    rw [hbl] at h
    simp only [Option.some.injEq] at h
    subst h
    intro o ho
    simp only [List.mem_append] at ho
    rcases ho with ((ht | h1) | h2) | h3
    · exact buyLoop_nonneg product limit pos accBid osell pos takes c0 hbl o ht
    · have := passiveBuy_qty product limit (pos < 0) (min (ub + 1) (accBid - 1)) c0 o h1
      omega
    · have := passiveBuy_qty product limit (pos > 15) (min (ub - 1) (accBid - 1))
        (passiveBuy product limit (pos < 0) (min (ub + 1) (accBid - 1)) c0).2 o h2
      omega
    · have := passiveBuy_qty product limit True bp
        (passiveBuy product limit (pos > 15) (min (ub - 1) (accBid - 1))
          (passiveBuy product limit (pos < 0) (min (ub + 1) (accBid - 1)) c0).2).2 o h3
      omega

theorem sellPhase_nonpos (product : String) (limit pos accAsk us sp : Int)
    (obuy : List (Int × Int)) (ss : List Order)
    (h : sellPhase product limit pos accAsk us sp obuy = some ss) :
    ∀ o ∈ ss, o.quantity ≤ 0 := by
  cases hsl : sellLoop product limit pos accAsk obuy pos with
  | none => unfold sellPhase at h; rw [hsl] at h; simp at h
  | some pr =>
    obtain ⟨takes, c0⟩ := pr
    unfold sellPhase at h
    rw [hsl] at h
    simp only [Option.some.injEq] at h
    subst h
    intro o ho
    simp only [List.mem_append] at ho
    rcases ho with ((ht | h1) | h2) | h3
    · exact sellLoop_nonpos product limit pos accAsk obuy pos takes c0 hsl o ht
    · have := passiveSell_qty product limit (pos > 0) (max (us - 1) (accAsk + 1)) c0 o h1
      omega
    · have := passiveSell_qty product limit (pos < -15) (max (us + 1) (accAsk + 1))
        (passiveSell product limit (pos > 0) (max (us - 1) (accAsk + 1)) c0).2 o h2
      omega
    · have := passiveSell_qty product limit True sp
        (passiveSell product limit (pos < -15) (max (us + 1) (accAsk + 1))
          (passiveSell product limit (pos > 0) (max (us - 1) (accAsk + 1)) c0).2).2 o h3
      omega

theorem compute_orders_split (product : String) (limit pos accBid accAsk : Int)
    (od : OrderDepth) (orders : List Order)
    (h : compute_orders_resin product limit pos od accBid accAsk = some orders) :
    ∃ bs ss, orders = bs ++ ss ∧ (∀ o ∈ bs, 0 ≤ o.quantity) ∧ (∀ o ∈ ss, o.quantity ≤ 0) := by
  unfold compute_orders_resin computeOrdersResinWith at h
  simp only [] at h
  cases hbp : buyPhase product limit pos accBid
      ((values_extract (sortDesc od.buy_orders) 1).2 + 1)
      (min ((values_extract (sortDesc od.buy_orders) 1).2 + 1) (accBid - 1))
      (sortAsc od.sell_orders) with
  | none => rw [hbp] at h; simp at h
  | some bs =>
    rw [hbp] at h
    cases hsp : sellPhase product limit pos accAsk
        ((values_extract (sortAsc od.sell_orders) 0).2 - 1)
        (max ((values_extract (sortAsc od.sell_orders) 0).2 - 1) (accAsk + 1))
        (sortDesc od.buy_orders) with
    | none => rw [hsp] at h; simp at h
    | some ss =>
      rw [hsp] at h
      simp only [Option.some.injEq] at h
      exact ⟨bs, ss, h.symm, buyPhase_nonneg _ _ _ _ _ _ _ _ hbp,
        sellPhase_nonpos _ _ _ _ _ _ _ _ hsp⟩

theorem valuesExtractGo_fst (buy : Nat) :
    ∀ (l : List (Int × Int)) (tot bestVal mxvol : Int),
      (valuesExtractGo buy l tot bestVal mxvol).1 = tot + sideSum buy l := by
  intro l
  induction l with
  | nil => intro tot b m; simp [valuesExtractGo, sideSum]
  | cons hd tl ih =>
    intro tot b m
    obtain ⟨price, vol⟩ := hd
    simp only [valuesExtractGo, sideSum, List.map_cons, List.sum_cons]
    split <;> split <;> rw [ih] <;> simp_all [sideSum] <;> omega

/-! ## Claim theorems for the quoting engine -/

/-- Claim C1: for every instrument, every order book respecting the sign
convention (sell volumes negative, buy volumes positive), every acceptable
bid and ask, and every prior inventory within the limit, the returned
order list never pushes the signed inventory outside the limit band: the
prior position plus the summed buy quantities stays at most the limit, and
the prior position plus the summed sell quantities stays at least the
negated limit. -/
theorem claim_C1_position_limit (product : String) (limit pos accBid accAsk : Int)
    (od : OrderDepth) (orders : List Order)
    (hsell : ∀ pv ∈ od.sell_orders, pv.2 < 0) (hbuy : ∀ pv ∈ od.buy_orders, 0 < pv.2)
    (hlow : -limit ≤ pos) (hhigh : pos ≤ limit)
    (hrun : compute_orders_resin product limit pos od accBid accAsk = some orders) :
    pos + qsum (orders.filter fun o => decide (0 < o.quantity)) ≤ limit ∧
    -limit ≤ pos + qsum (orders.filter fun o => decide (o.quantity < 0)) := by
  obtain ⟨bs, ss, heq, hcap, hbq, scap, hsq⟩ :=
    compute_spec product limit pos accBid accAsk od hsell hbuy hlow hhigh
  rw [hrun] at heq
  obtain rfl := Option.some.inj heq
  constructor
  · rw [List.filter_append]
    have f1 : bs.filter (fun o => decide (0 < o.quantity)) = bs :=
      List.filter_eq_self.mpr fun o ho => by
        simp only [decide_eq_true_eq]
        have := hbq o ho
        omega
    have f2 : ss.filter (fun o => decide (0 < o.quantity)) = [] :=
      List.filter_eq_nil_iff.mpr fun o ho => by
        simp only [decide_eq_true_eq]
        have := hsq o ho
        omega
    rw [f1, f2, List.append_nil]
    exact hcap
  · rw [List.filter_append]
    have f1 : bs.filter (fun o => decide (o.quantity < 0)) = [] :=
      List.filter_eq_nil_iff.mpr fun o ho => by
        simp only [decide_eq_true_eq]
        have := hbq o ho
        omega
    have f2 : ss.filter (fun o => decide (o.quantity < 0)) = ss :=
      List.filter_eq_self.mpr fun o ho => by
        simp only [decide_eq_true_eq]
        have := hsq o ho
        omega
    rw [f1, f2, List.nil_append]
    exact scap

/-- Witness for claim C1 at the spec scenario: limit 50, inventory 0,
sell level 9998 for 10, buy level 10002 for 8, fair price 10000. -/
theorem claim_C1_position_limit_witness :
    (0 : Int) + qsum (scenarioOrders.filter fun o => decide (0 < o.quantity)) ≤ 50 ∧
    -(50 : Int) ≤ 0 + qsum (scenarioOrders.filter fun o => decide (o.quantity < 0)) :=
  claim_C1_position_limit "RAINFOREST_RESIN" 50 0 10000 10000 odScenario scenarioOrders
    (by decide) (by decide) (by decide) (by decide) (by decide)

/-- Claim C4 counterexample: on a malformed book whose sell side carries a
wrong-signed (positive) volume at an acceptable price, the computed take
quantity is negative and the engine fails its assertion (returns nothing)
instead of clamping the order quantity to zero and emitting no order for
that level. -/
theorem claim_C4_counterexample :
    compute_orders_resin "RAINFOREST_RESIN" 50 0 ⟨[], [(9999, 5)]⟩ 10000 10000 = none := by
  decide

/-- Claim C4 amended: the engine never emits a wrong-signed order - any
order list it does return splits into a buy segment of nonnegative
quantities followed by a sell segment of nonpositive quantities - but when
a computed take quantity would be negative it fails its assertion and
returns no order list at all, rather than clamping the quantity to zero. -/
theorem claim_C4_amended (product : String) (limit pos accBid accAsk : Int)
    (od : OrderDepth) (orders : List Order)
    (h : compute_orders_resin product limit pos od accBid accAsk = some orders) :
    ∃ bs ss, orders = bs ++ ss ∧ (∀ o ∈ bs, 0 ≤ o.quantity) ∧ (∀ o ∈ ss, o.quantity ≤ 0) :=
  compute_orders_split product limit pos accBid accAsk od orders h

/-- Witness for the amended claim C4 at the empty book and inventory 0. -/
theorem claim_C4_amended_witness :
    ∃ bs ss, emptyBookOrders = bs ++ ss ∧
      (∀ o ∈ bs, 0 ≤ o.quantity) ∧ (∀ o ∈ ss, o.quantity ≤ 0) :=
  claim_C4_amended "RAINFOREST_RESIN" 50 0 10000 10000 ⟨[], []⟩ emptyBookOrders (by decide)

/-- Claim C5: the first component returned by values_extract is the sum of
the level volumes, sign-inverted on the sell side (buy = 0); on the sell
map with levels 100 to -5 and 101 to -3 it returns cumulative volume 8 and
best price 101, and on the empty map it returns 0 and the sentinel -1. -/
theorem claim_C5_extractor :
    (∀ (l : List (Int × Int)) (buy : Nat), (values_extract l buy).1 = sideSum buy l) ∧
    values_extract [(100, -5), (101, -3)] 0 = (8, 101) ∧
    values_extract ([] : List (Int × Int)) 0 = (0, -1) := by
  refine ⟨fun l buy => ?_, by decide, by decide⟩
  have h := valuesExtractGo_fst buy l 0 (-1) (-1)
  simpa [values_extract] using h

/-- Claim C8 counterexample: two engine runs that agree on everything -
book sides, positions, acceptable prices, and the extractor cumulative
totals - but differ in the extractor best sell price produce different
order lists, because the best prices drive the passive quote prices. -/
theorem claim_C8_counterexample :
    computeOrdersResinWith "RAINFOREST_RESIN" 50 0 10000 10000 [] [] (0, -1) (0, -1)
      ≠ computeOrdersResinWith "RAINFOREST_RESIN" 50 0 10000 10000 [] [] (0, 20000) (0, -1) := by
  decide

/-- Claim C8 amended: the engine output depends on the extractor results
only through the best-price components; the cumulative-volume components
are computed but unused, so two runs agreeing on everything except the
cumulative totals produce identical order lists. -/
theorem claim_C8_amended (product : String) (limit pos accBid accAsk : Int)
    (osell obuy : List (Int × Int)) (v1 v2 w1 w2 b1 b2 : Int) :
    computeOrdersResinWith product limit pos accBid accAsk osell obuy (v1, b1) (v2, b2)
      = computeOrdersResinWith product limit pos accBid accAsk osell obuy (w1, b1) (w2, b2) :=
  rfl

/-! ## Claim theorems for Trader.run -/

/-- Claim C3 counterexample: on a tick whose RAINFOREST_RESIN book has
both side maps empty and whose inventory is zero, run does not return an
empty order list for the instrument - it posts the two passive quotes,
a buy of 40 at price 0 (from the sentinel best price -1) and a sell of 40
at price 10001. -/
theorem claim_C3_counterexample :
    run stEmptyBook = some ([("RAINFOREST_RESIN", emptyBookOrders)], 0, "") ∧
    emptyBookOrders ≠ [] := by
  constructor
  · rfl
  · decide

/-- Claim C3 amended: on a tick whose RAINFOREST_RESIN book has both side
maps empty and whose inventory is zero, run returns exactly the two
unconditional passive quotes - a buy of 40 at price
min(sentinel - 1 + 2, 9999) = 0 and a sell of -40 at price
max(sentinel - 2, 10001) = 10001 - not an empty list. -/
theorem claim_C3_amended (st : TradingState)
    (hod : st.order_depths.lookup "RAINFOREST_RESIN" = some ⟨[], []⟩)
    (hpos : (st.position.lookup "RAINFOREST_RESIN").getD 0 = 0) :
    run st = some ([("RAINFOREST_RESIN", emptyBookOrders)], 0, "") := by
  unfold run runWithEncoder ordersPart
  rw [hod, hpos]
  rfl

/-- Witness for the amended claim C3 at the concrete empty-book state. -/
theorem claim_C3_amended_witness :
    run stEmptyBook = some ([("RAINFOREST_RESIN", emptyBookOrders)], 0, "") :=
  claim_C3_amended stEmptyBook (by decide) (by decide)

/-- Claim C7 counterexample: the computed orders for the empty-book state
exist (two passive quotes), yet with an encoding step that fails, run
returns nothing at all - the orders are lost, because Trader.run calls
logger.flush with no exception handler before returning. -/
theorem claim_C7_counterexample :
    ordersPart stEmptyBook = some [("RAINFOREST_RESIN", emptyBookOrders)] ∧
    runWithEncoder (fun _ _ _ _ => none) stEmptyBook = none := by
  constructor
  · rfl
  · rfl

/-- Claim C7 amended: a failure of the diagnostic encoding step is fatal
to the tick - if the encoder raises, run propagates the failure and the
computed orders are not returned to the caller. -/
theorem claim_C7_amended
    (enc : TradingState → List (String × List Order) → Int → String → Option String)
    (st : TradingState) (orders : List (String × List Order))
    (ho : ordersPart st = some orders) (he : enc st orders 0 "" = none) :
    runWithEncoder enc st = none := by
  unfold runWithEncoder
  rw [ho]
  simp only [he]

/-- Witness for the amended claim C7 at the empty-book state with an
always-failing encoder. -/
theorem claim_C7_amended_witness :
    runWithEncoder (fun _ _ _ _ => none) stEmptyBook = none :=
  claim_C7_amended (fun _ _ _ _ => none) stEmptyBook
    [("RAINFOREST_RESIN", emptyBookOrders)] (by rfl) (by rfl)

/-- Claim C9: whenever run returns, its conversions count is the constant
0 and its outgoing context blob is the empty string. -/
theorem claim_C9_constant_outputs (st : TradingState)
    (r : List (String × List Order) × Int × String) (h : run st = some r) :
    r.2.1 = 0 ∧ r.2.2 = "" := by
  unfold run runWithEncoder at h
  cases hop : ordersPart st with
  | none => rw [hop] at h; simp at h
  | some o =>
    rw [hop] at h
    simp only [Option.some.injEq] at h
    rw [← h]
    exact ⟨rfl, rfl⟩

/-- Witness for claim C9 at a state with no RAINFOREST_RESIN entry. -/
theorem claim_C9_constant_outputs_witness :
    (([], 0, "") : List (String × List Order) × Int × String).2.1 = 0 ∧
    (([], 0, "") : List (String × List Order) × Int × String).2.2 = "" :=
  claim_C9_constant_outputs stNoResin ([], 0, "") (by rfl)

/-- Claim C10: whenever run returns, the orders mapping carries at most
the key RAINFOREST_RESIN, and it is empty exactly when that symbol is
absent from the order depths of the state. -/
theorem claim_C10_only_resin (st : TradingState)
    (r : List (String × List Order) × Int × String) (h : run st = some r) :
    (∀ k ∈ r.1.map Prod.fst, k = "RAINFOREST_RESIN") ∧
    (r.1 = [] ↔ st.order_depths.lookup "RAINFOREST_RESIN" = none) := by
  unfold run runWithEncoder ordersPart at h
  cases hod : st.order_depths.lookup "RAINFOREST_RESIN" with
  | none =>
    rw [hod] at h
    simp only [Option.some.injEq] at h
    rw [← h]
    simp
  | some od =>
    rw [hod] at h
    simp only [] at h
    cases hco : compute_orders_resin "RAINFOREST_RESIN" resinPositionLimit
        ((st.position.lookup "RAINFOREST_RESIN").getD 0) od resinFairPrice resinFairPrice with
    | none => rw [hco] at h; simp at h
    | some l =>
      rw [hco] at h
      simp at h
      rw [← h]
      simp [hod]

/-- Witness for claim C10 at the empty-book state, where the single key is
RAINFOREST_RESIN and the mapping is nonempty. -/
theorem claim_C10_only_resin_witness :
    (∀ k ∈ ([("RAINFOREST_RESIN", emptyBookOrders)].map Prod.fst),
        k = "RAINFOREST_RESIN") ∧
    (([("RAINFOREST_RESIN", emptyBookOrders)] : List (String × List Order)) = [] ↔
      stEmptyBook.order_depths.lookup "RAINFOREST_RESIN" = none) := by
  have h := claim_C10_only_resin stEmptyBook
    ([("RAINFOREST_RESIN", emptyBookOrders)], 0, "") (by rfl)
  exact h

/-! ## Lemmas about the diagnostic encoder -/

theorem data_mk (l : List Char) : (String.mk l).data = l := rfl

theorem length_mk (l : List Char) : (String.mk l).length = l.length := rfl

theorem truncate_of_le (s : String) (m : Int) (h : (s.length : Int) ≤ m) :
    truncate s m = s := by
  unfold truncate
  rw [if_pos h]

theorem truncate_length_le (s : String) (m : Int) (hm : 3 ≤ m) :
    ((truncate s m).length : Int) ≤ m := by
  unfold truncate
  split
  · omega
  · rename_i hgt
    rw [String.length_append]
    unfold pySliceTo
    rw [if_pos (by omega : (0:Int) ≤ m - 3), length_mk, List.length_take]
    have h1 : ((m - 3).toNat : Int) = m - 3 := Int.toNat_of_nonneg (by omega)
    have h2 : ("..." : String).length = 3 := rfl
    rw [h2]
    have h3 : (m - 3).toNat ⊓ s.data.length ≤ (m - 3).toNat := min_le_left _ _
    have h4 : s.data.length = s.length := rfl
    omega

theorem truncate_data_length_le (s : String) (m : Int) (hm : 3 ≤ m) :
    (((truncate s m).data.length : Nat) : Int) ≤ m :=
  truncate_length_le s m hm

theorem truncate_data_subset (s : String) (m : Int) :
    ∀ c ∈ (truncate s m).data, c ∈ s.data ∨ c = '.' := by
  unfold truncate
  split
  · intro c hc
    exact Or.inl hc
  · intro c hc
    rw [String.data_append] at hc
    rcases List.mem_append.1 hc with h1 | h2
    · unfold pySliceTo at h1
      rw [data_mk] at h1
      exact Or.inl (List.mem_of_mem_take h1)
    · right
      have : ("..." : String).data = ['.', '.', '.'] := rfl
      rw [this] at h2
      simp at h2
      exact h2

theorem escChar_plain (c : Char) (h : plainChar c) : escChar c = [c] := by
  obtain ⟨h1, h2, h3, h4⟩ := h
  have hn : c ≠ '\n' := by intro e; rw [e] at h1; exact absurd h1 (by decide)
  have hr : c ≠ '\r' := by intro e; rw [e] at h1; exact absurd h1 (by decide)
  have ht : c ≠ '\t' := by intro e; rw [e] at h1; exact absurd h1 (by decide)
  unfold escChar
  rw [if_neg h3, if_neg h4, if_neg hn, if_neg hr, if_neg ht,
    if_neg (by omega : ¬ c.toNat = 8), if_neg (by omega : ¬ c.toNat = 12),
    if_neg (by omega : ¬ c.toNat < 32), if_pos h2]

theorem escChars_plain (l : List Char) (h : ∀ c ∈ l, plainChar c) : escChars l = l := by
  induction l with
  | nil => rfl
  | cons c t ih =>
    simp only [escChars, List.map_cons, List.flatten_cons]
    rw [escChar_plain c (h c (List.mem_cons_self _ _))]
    have := ih fun d hd => h d (List.mem_cons_of_mem _ hd)
    simp only [escChars] at this
    rw [this]
    rfl

theorem plainStr_truncate (s : String) (m : Int) (h : plainStr s) :
    plainStr (truncate s m) := by
  intro c hc
  rcases truncate_data_subset s m c hc with h1 | h1
  · exact h c h1
  · rw [h1]
    decide

/-! ## Claim theorems for the truncation helper -/

/-- Claim C6 counterexample: at budget 2 (below the 3-character ellipsis
marker) a string of length budget + 100 is not truncated to exactly the
budget - the Python negative slice keeps all but the last character, so
the result has length 104, not 2. -/
theorem claim_C6_counterexample :
    (truncate s102 2).length = 104 ∧ (truncate s102 2).length ≠ 2 := by
  constructor
  · decide
  · decide

/-- Claim C6 amended: for budgets of at least 3 characters, truncate
returns strings within the budget unchanged, and truncates a longer string
to its first budget - 3 characters followed by the 3-character ellipsis
marker, for a total of exactly budget characters. -/
theorem claim_C6_amended (s : String) (b : Int) (hb : 3 ≤ b) :
    ((s.length : Int) ≤ b → truncate s b = s) ∧
    (b < (s.length : Int) →
      truncate s b = String.mk (s.data.take (b - 3).toNat) ++ "..." ∧
      ((truncate s b).length : Int) = b) := by
  constructor
  · exact truncate_of_le s b
  · intro hlt
    have hnle : ¬ ((s.length : Int) ≤ b) := by omega
    constructor
    · unfold truncate
      rw [if_neg hnle]
      unfold pySliceTo
      rw [if_pos (by omega : (0:Int) ≤ b - 3)]
    · unfold truncate
      rw [if_neg hnle, String.length_append]
      unfold pySliceTo
      rw [if_pos (by omega : (0:Int) ≤ b - 3), length_mk, List.length_take]
      have h1 : ((b - 3).toNat : Int) = b - 3 := Int.toNat_of_nonneg (by omega)
      have h2 : ("..." : String).length = 3 := rfl
      have h4 : s.data.length = s.length := rfl
      rw [h2]
      omega

/-- Witness for the amended claim C6 at a 10-character string and budget
5: the result is the first 2 characters plus the ellipsis, length 5. -/
theorem claim_C6_amended_witness :
    truncate "0123456789" 5 = String.mk ("0123456789".data.take ((5:Int) - 3).toNat) ++ "..." ∧
    ((truncate "0123456789" 5).length : Int) = 5 :=
  (claim_C6_amended "0123456789" 5 (by decide)).2 (by decide)

/-! ## Length accounting for the encoder -/

theorem flushPayload_length (st : TradingState) (orders : List (String × List Order))
    (conv : Int) (f1 f2 f3 : String) :
    (flushPayload st orders conv f1 f2 f3).length
      = (flushPayload st orders conv "" "" "").length
        + (escChars f1.data).length + (escChars f2.data).length
        + (escChars f3.data).length := by
  have h0 : (escChars ([] : List Char)).length = 0 := rfl
  have h1 : (escChars ("" : String).data).length = 0 := rfl
  simp only [flushPayload, compressStateChars, serArr, serStr, joinComma,
    List.length_append, List.length_cons, List.length_nil]
  omega

theorem flush_length (st : TradingState) (orders : List (String × List Order))
    (conv : Int) (td logs : String) :
    (flush st orders conv td logs).length
      = base_length st orders conv
        + (escChars (truncate st.traderData (max_item_length st orders conv)).data).length
        + (escChars (truncate td (max_item_length st orders conv)).data).length
        + (escChars (truncate logs (max_item_length st orders conv)).data).length := by
  unfold flush base_length
  rw [length_mk]
  exact flushPayload_length st orders conv _ _ _

theorem escChars_replicate_A (n : Nat) :
    escChars (List.replicate n 'A') = List.replicate n 'A' := by
  apply escChars_plain
  intro c hc
  rw [List.eq_of_mem_replicate hc]
  decide

theorem serStr_symBig_length : (serStr symBig).length = 3802 := by
  unfold serStr symBig
  rw [data_mk, escChars_replicate_A]
  simp only [List.length_cons, List.length_append, List.length_replicate, List.length_nil]

theorem payload_big_lower : 3750 < (flushPayload stBig [] 0 "" "" "").length := by
  have hsym := serStr_symBig_length
  simp only [flushPayload, compressStateChars, compressListingsChars, stBig,
    List.map_cons, List.map_nil, serArr, joinComma,
    List.length_append, List.length_cons, List.length_nil]
  omega

/-! ## Claim theorems for the diagnostic encoder -/

/-- Claim C2 counterexample: a state whose fixed-shape part alone (a
single listing with a 3800-character symbol) serializes past the budget
makes the flushed record longer than 3750 characters, refuting the
universal budget law. -/
theorem claim_C2_counterexample :
    ¬ (((flush stBig [] 0 "" "").length : Int) ≤ maxLogLength) := by
  have hsplit := flush_length stBig [] 0 "" ""
  have hbase := payload_big_lower
  unfold base_length at hsplit
  unfold maxLogLength
  omega

/-- Claim C2 amended: the flushed record stays within the 3750-character
budget whenever the derived per-field budget is at least the 3-character
ellipsis marker and the three variable fields consist of characters that
serialize without escape expansion; and for such inputs whose three
variable fields are each shorter than the per-field budget the output is
byte-identical to the untruncated serialization. -/
theorem claim_C2_amended (st : TradingState) (orders : List (String × List Order))
    (conv : Int) (td logs : String)
    (hb : 3 ≤ max_item_length st orders conv)
    (h1 : plainStr st.traderData) (h2 : plainStr td) (h3 : plainStr logs) :
    ((flush st orders conv td logs).length : Int) ≤ maxLogLength ∧
    ((st.traderData.length : Int) < max_item_length st orders conv →
     (td.length : Int) < max_item_length st orders conv →
     (logs.length : Int) < max_item_length st orders conv →
     flush st orders conv td logs = flushUntruncated st orders conv td logs) := by
  constructor
  · have hlen := flush_length st orders conv td logs
    rw [escChars_plain _ (plainStr_truncate st.traderData _ h1),
      escChars_plain _ (plainStr_truncate td _ h2),
      escChars_plain _ (plainStr_truncate logs _ h3)] at hlen
    have l1 := truncate_data_length_le st.traderData (max_item_length st orders conv) hb
    have l2 := truncate_data_length_le td (max_item_length st orders conv) hb
    have l3 := truncate_data_length_le logs (max_item_length st orders conv) hb
    have hdiv : max_item_length st orders conv
        = ((3750 : Int) - base_length st orders conv) / 3 := by
      unfold max_item_length maxLogLength
      exact Int.fdiv_eq_ediv _ (by norm_num)
    unfold maxLogLength
    omega
  · intro s1 s2 s3
    unfold flush flushUntruncated
    rw [truncate_of_le st.traderData _ (le_of_lt s1), truncate_of_le td _ (le_of_lt s2),
      truncate_of_le logs _ (le_of_lt s3)]

/-- Witness for the amended claim C2 at a small state with short plain
fields: the record respects the budget and matches the untruncated
serialization. -/
theorem claim_C2_amended_witness :
    ((flush stSmall [] 0 "xy" "zw").length : Int) ≤ maxLogLength ∧
    flush stSmall [] 0 "xy" "zw" = flushUntruncated stSmall [] 0 "xy" "zw" :=
  ⟨(claim_C2_amended stSmall [] 0 "xy" "zw" (by decide) (by decide) (by decide)
      (by decide)).1,
   (claim_C2_amended stSmall [] 0 "xy" "zw" (by decide) (by decide) (by decide)
      (by decide)).2 (by decide) (by decide) (by decide)⟩
